import Mathlib

/-!
Verification of the bulk photo processing service ("bulk-fotoverwerker").

Shallow embedding of the batch orchestrator (src/server.js) and of the worker
image pipeline (src/worker.js).  JavaScript numbers are modelled as exact
rationals (all quantities the code computes here are either integers or small
decimal fractions, far below any double-precision hazard); strings are modelled
as Lean strings over their character lists, and all string helpers are written
as structural recursions over those lists so every concrete instance evaluates.

External collaborators (sharp decode/encode, SVG text rasterisation, the RAW
converter binaries, the filesystem, the archiver) are modelled as oracles:
abstract function parameters supplying their observable results.
-/

/-! ## Generic JS helpers -/

/-- JS Math.round on exact rationals: round half toward positive infinity. -/
def jsRound (q : ℚ) : ℤ := ⌊q + 1/2⌋

/-- The worker helper clamp(v, min, max) = Math.max(min, Math.min(max, v)). -/
def jsClamp (v lo hi : ℚ) : ℚ := max lo (min hi v)

/-- Lower-case a character list (JS String.toLowerCase restricted to the ASCII
file names and extensions the service compares). -/
def lowerChars (l : List Char) : List Char := l.map Char.toLower

/-- Lower-case a string, via `lowerChars`. -/
def strToLower (s : String) : String := String.mk (lowerChars s.data)

/-- Suffix of a character list starting at its last dot, when it has one. -/
def tailFromLastDot : List Char → Option (List Char)
  | [] => none
  | c :: cs =>
    match tailFromLastDot cs with
    | some r => some r
    | none => if c = '.' then some (c :: cs) else none

/-- Characters of a path after its last slash (Node path.basename, POSIX). -/
def afterLastSlash (l : List Char) : List Char :=
  l.foldl (fun acc c => if c = '/' then [] else acc ++ [c]) []

/-- Node path.extname: the part of the basename from its last dot to the end;
empty when the basename has no dot, or when its only dot is its first
character (dotfiles). -/
def extname (s : String) : String :=
  let base := afterLastSlash s.data
  match tailFromLastDot base with
  | none => ""
  | some e => if e.length = base.length then "" else String.mk e

/-- Basename of a path, as a string. -/
def basenameStr (s : String) : String := String.mk (afterLastSlash s.data)

/-! ## Converter Chain (src/server.js lines 205-255) -/

/-- src/server.js line 206. -/
def RAW_EXTS : List String :=
  [".dng", ".arw", ".cr2", ".cr3", ".nef", ".orf", ".raf", ".rw2", ".srw"]

/-- src/server.js line 207. -/
def RASTER_OK : List String :=
  [".jpg", ".jpeg", ".png", ".tif", ".tiff", ".webp", ".bmp"]

/-- src/server.js ensureRasterInput (lines 218-255).  The ordered attempts at
darktable-cli / rawtherapee-cli / dcraw_emu are modelled by the oracle `conv`,
which reports the converted TIFF path when some attempt produced one. -/
def ensureRasterInput (conv : String → Option String) (inputPath : String) :
    Except String String :=
  let ext := strToLower (extname inputPath)
  if RASTER_OK.contains ext then Except.ok inputPath
  else if RAW_EXTS.contains ext = false then Except.ok inputPath
  else
    match conv inputPath with
    | some outTif => Except.ok outTif
    | none =>
      Except.error ("RAW-conversie mislukt voor " ++ basenameStr inputPath ++
        " — geen bruikbare converter gevonden")

/-- True exactly when ensureRasterInput would route this path through the RAW
conversion attempts (extension not raster-ok and listed in RAW_EXTS). -/
def isRawInput (p : String) : Bool :=
  let ext := strToLower (extname p)
  !RASTER_OK.contains ext && RAW_EXTS.contains ext

/-! ## Orchestrator: per-file dispatch (src/server.js lines 150-183) -/

/-- src/server.js line 158: RAW extensions dng, cr2, nef (case-insensitive,
anchored at the end of the filename) are replaced by .jpg when forming the
output filename; every other filename passes through unchanged. -/
def rawOutExts : List String := [".dng", ".cr2", ".nef"]

/-- filename.replace with the dng/cr2/nef pattern, src/server.js line 158. -/
def outputName (s : String) : String :=
  let n := s.data.length
  if 4 ≤ n ∧ rawOutExts.contains (strToLower (String.mk (s.data.drop (n - 4)))) = true then
    String.mk (s.data.take (n - 4)) ++ ".jpg"
  else s

/-- The payload handed to each worker thread, src/server.js lines 160-166. -/
structure WorkerPayload where
  inputPath : String
  outputPath : String
  mode : String
  dateText : String
  eventText : String
  logoPath : String
  deriving DecidableEq, Repr

/-- src/server.js lines 155-166: the orchestrator joins the uploads directory
with the claimed filename and the output directory with the renamed filename,
and passes both paths to the worker, with no conversion step in between. -/
def mkWorkerPayload (uploadsDir outDir filename mode dateText eventText logoPath : String) :
    WorkerPayload :=
  { inputPath := uploadsDir ++ "/" ++ filename,
    outputPath := outDir ++ "/" ++ outputName filename,
    mode := mode, dateText := dateText, eventText := eventText, logoPath := logoPath }

/-- src/worker.js line 21: the path the image pipeline decodes is the inputPath
field of the payload, verbatim. -/
def sharpDecodePath (p : WorkerPayload) : String := p.inputPath

/-! ## Worker output path normalisation (src/worker.js lines 57-60) -/

/-- src/worker.js line 59. -/
def allowedOutExts : List String := [".jpg", ".jpeg", ".png", ".webp"]

/-- src/worker.js lines 57-60: lower-case the output extension, fall back to
.jpg when it is not a supported raster extension, and substitute it for the
trailing dot-extension of the output path (the replace with a dot followed by
one or more non-dot characters at the end of the string). -/
def workerFinalName (out : String) : String :=
  let ext0 := strToLower (extname out)
  let outExt := if allowedOutExts.contains ext0 then ext0 else ".jpg"
  match tailFromLastDot out.data with
  | some e =>
    if 2 ≤ e.length then String.mk (out.data.take (out.data.length - e.length)) ++ outExt
    else out
  | none => out

/-- End-to-end output filename a worker writes for a given input filename:
the RAW rename of the orchestrator followed by the extension normalisation
of the worker. -/
def writtenName (f : String) : String := workerFinalName (outputName f)

/-! ## Theorems for C1 (RAW conversion before decode) -/

/-- Claim C1: the spec says every RAW file is routed through the Converter
Chain (ensureRasterInput) before the Image Pipeline decodes it.  In the code,
ensureRasterInput is defined in src/server.js but never invoked: the payload
built at lines 160-166 carries the raw uploads path, and src/worker.js line 21
feeds exactly that path to the decoder.  At the failing input photo.cr2 the
decoded path is still classified as requiring RAW conversion, and the
Converter Chain itself (which the upload filter, the .jpg output rename and
the RAW tooling installed by the Docker image all show was intended to run) would have
rejected a pass-through: with no converter available it fails rather than
return the input path. -/
theorem raw_file_decoded_without_conversion :
    sharpDecodePath
        (mkWorkerPayload "uploads/b1" "storage/b1/out" "photo.cr2"
          "edit-watermark" "2024-05-01" "Team Offsite" "public/logo.png") =
      "uploads/b1/photo.cr2" ∧
    isRawInput "uploads/b1/photo.cr2" = true ∧
    ensureRasterInput (fun _ => none) "uploads/b1/photo.cr2" =
      Except.error
        "RAW-conversie mislukt voor photo.cr2 — geen bruikbare converter gevonden" := by
  refine ⟨rfl, by decide, by rfl⟩

/-! ## Theorems for C5 (distinctness of output filenames) -/

/-- Claim C5, counterexample: the rename of src/server.js line 158 is not
injective — the distinct input filenames a.dng and a.cr2 both map to the
output filename a.jpg, so two workers write the same output file. -/
theorem outputName_collision :
    outputName "a.dng" = "a.jpg" ∧ outputName "a.cr2" = "a.jpg" ∧
      ("a.dng" : String) ≠ "a.cr2" := by
  refine ⟨by decide, by decide, by decide⟩

/-- Left-cancellation of string concatenation, used to carry distinctness of
output filenames to distinctness of full output paths. -/
theorem string_append_cancel_left {d x y : String} (h : d ++ x = d ++ y) : x = y := by
  have hd := congrArg String.data h
  simp only [String.data_append] at hd
  cases x with
  | mk xd =>
    cases y with
    | mk yd => exact congrArg String.mk (List.append_cancel_left hd)

/-- Claim C5, amended: the orchestrator filename rename is not injective,
but whenever the end-to-end written names of the files of a batch are pairwise
distinct, any two distinct input filenames are written to distinct output
files (and hence to distinct paths under the shared output directory). -/
theorem distinct_written_names_of_nodup (files : List String)
    (hnd : (files.map writtenName).Nodup) (a b : String)
    (ha : a ∈ files) (hb : b ∈ files) (hab : a ≠ b) :
    writtenName a ≠ writtenName b ∧
      ∀ outDir : String, outDir ++ writtenName a ≠ outDir ++ writtenName b := by
  have hne : writtenName a ≠ writtenName b := by
    intro h
    exact hab (List.inj_on_of_nodup_map hnd ha hb h)
  exact ⟨hne, fun outDir h => hne (string_append_cancel_left h)⟩

/-- Witness for the amended C5 theorem at a concrete batch. -/
theorem distinct_written_names_witness :
    ((["a.jpg", "b.dng"].map writtenName).Nodup ∧ ("a.jpg" : String) ≠ "b.dng") ∧
      writtenName "a.jpg" ≠ writtenName "b.dng" := by
  refine ⟨⟨by decide, by decide⟩, ?_⟩
  exact (distinct_written_names_of_nodup ["a.jpg", "b.dng"] (by decide) "a.jpg" "b.dng"
    (by decide) (by decide) (by decide)).1

/-! ## Batch data model and orchestration (src/server.js lines 59-202)

The worker pool completions interleave, but each per-file completion performs
one atomic bookkeeping step (increment exactly one of processed/failed and mark
the file record) on the cooperatively single-threaded host, so the counters
after the pool join are independent of the interleaving; the pool run is
therefore folded over the on-disk file listing in order.  The per-file success
or failure reported by a worker thread is the oracle `outcome`.  The on-disk
listing read back at line 149 contains each distinct uploaded name once: a
directory cannot hold two entries with the same name, so a duplicated
originalname is overwritten during intake (multer stores each file under its
originalname). -/

inductive FStatus
  | queued
  | ok
  | failed
  deriving DecidableEq, Repr

inductive BStatus
  | uploading
  | queued
  | processing
  | zipping
  | done
  | error
  deriving DecidableEq, Repr

structure FileRec where
  name : String
  fstatus : FStatus
  errMsg : Option String
  deriving DecidableEq, Repr

structure Batch where
  total : Nat
  processed : Nat
  failed : Nat
  status : BStatus
  files : List FileRec
  deriving DecidableEq, Repr

/-- src/server.js lines 101-103: files from the upload records, total from
their count, status queued. -/
def intakeBatch (names : List String) : Batch :=
  { total := names.length, processed := 0, failed := 0, status := BStatus.queued,
    files := names.map fun n => { name := n, fstatus := FStatus.queued, errMsg := none } }

/-- src/server.js lines 169-174: batch.files.find(x => x.name === filename)
mutates the first record with the given name. -/
def markFile (recs : List FileRec) (n : String) (st : FStatus) (e : Option String) :
    List FileRec :=
  match recs with
  | [] => []
  | r :: rs =>
    if r.name = n then { r with fstatus := st, errMsg := e } :: rs
    else r :: markFile rs n st e

/-- src/server.js lines 167-175: completion of one file — increment exactly one
counter and mark its record. -/
def stepFile (outcome : String → Bool) (b : Batch) (f : String) : Batch :=
  if outcome f then
    { b with processed := b.processed + 1, files := markFile b.files f FStatus.ok none }
  else
    { b with failed := b.failed + 1,
             files := markFile b.files f FStatus.failed (some "worker error") }

/-- The on-disk uploads listing of line 149: each distinct name once. -/
def diskFiles (names : List String) : List String := names.dedup

/-- The pool of lines 150-183 after all workers join, folded per file. -/
def runPool (outcome : String → Bool) (b : Batch) (l : List String) : Batch :=
  l.foldl (stepFile outcome) b

/-- Batch state right after the Promise.all of line 183 resolves. -/
def pooledBatch (names : List String) (outcome : String → Bool) : Batch :=
  runPool outcome { intakeBatch names with status := BStatus.processing } (diskFiles names)

/-- The output directory listing of line 186: each worker success wrote its
renamed file; failures wrote nothing. -/
def outFiles (names : List String) (outcome : String → Bool) : List String :=
  ((diskFiles names).filter fun f => outcome f).map outputName

/-- src/server.js lines 186-196: empty output forces status error; otherwise
the batch is zipped and ends done. -/
def finalBatch (names : List String) (outcome : String → Bool) : Batch :=
  if outFiles names outcome = [] then { pooledBatch names outcome with status := BStatus.error }
  else { pooledBatch names outcome with status := BStatus.done }

/-- Every batch state the orchestration passes through, in order: intake,
processing, one state per completed file, then the post-pool transition
(error on empty output, else zipping then done). -/
def batchTrace (names : List String) (outcome : String → Bool) : List Batch :=
  intakeBatch names ::
    List.scanl (stepFile outcome) { intakeBatch names with status := BStatus.processing }
      (diskFiles names) ++
    (if outFiles names outcome = [] then
      [{ pooledBatch names outcome with status := BStatus.error }]
     else
      [{ pooledBatch names outcome with status := BStatus.zipping },
        { pooledBatch names outcome with status := BStatus.done }])

theorem stepFile_counters (oc : String → Bool) (b : Batch) (f : String) :
    (stepFile oc b f).processed + (stepFile oc b f).failed = b.processed + b.failed + 1 ∧
      (stepFile oc b f).total = b.total := by
  unfold stepFile
  by_cases h : oc f = true <;> simp [h] <;> omega

theorem runPool_counters (oc : String → Bool) :
    ∀ (l : List String) (b : Batch),
      (runPool oc b l).processed + (runPool oc b l).failed =
          b.processed + b.failed + l.length ∧
        (runPool oc b l).total = b.total := by
  intro l
  induction l with
  | nil => intro b; simp [runPool]
  | cons x xs ih =>
    intro b
    have hx := stepFile_counters oc b x
    have hr := ih (stepFile oc b x)
    simp only [runPool, List.foldl_cons] at hr ⊢
    simp only [List.length_cons]
    omega

theorem scanl_counter_bound (oc : String → Bool) :
    ∀ (l : List String) (b b' : Batch), b' ∈ List.scanl (stepFile oc) b l →
      b'.processed + b'.failed ≤ b.processed + b.failed + l.length ∧ b'.total = b.total := by
  intro l
  induction l with
  | nil =>
    intro b b' h
    simp only [List.scanl_nil, List.mem_singleton] at h
    subst h
    simp
  | cons x xs ih =>
    intro b b' h
    rw [List.scanl_cons] at h
    rcases List.mem_append.mp h with h | h
    · simp only [List.mem_singleton] at h
      subst h
      exact ⟨by omega, rfl⟩
    · have hx := stepFile_counters oc b x
      have hr := ih (stepFile oc b x) b' h
      simp only [List.length_cons]
      omega

@[simp] theorem batch_status_update_processed (b : Batch) (s : BStatus) :
    ({ b with status := s } : Batch).processed = b.processed := rfl

@[simp] theorem batch_status_update_failed (b : Batch) (s : BStatus) :
    ({ b with status := s } : Batch).failed = b.failed := rfl

@[simp] theorem batch_status_update_total (b : Batch) (s : BStatus) :
    ({ b with status := s } : Batch).total = b.total := rfl

@[simp] theorem batch_status_update_status (b : Batch) (s : BStatus) :
    ({ b with status := s } : Batch).status = s := rfl

theorem pooledBatch_counters (names : List String) (outcome : String → Bool) :
    (pooledBatch names outcome).processed + (pooledBatch names outcome).failed =
        (diskFiles names).length ∧
      (pooledBatch names outcome).total = names.length := by
  have h := runPool_counters outcome (diskFiles names)
    { intakeBatch names with status := BStatus.processing }
  simp only [pooledBatch, intakeBatch, batch_status_update_processed,
    batch_status_update_failed, batch_status_update_total] at h ⊢
  omega

/-- Claim C2, amended: along every state of the execution of a batch,
processed + failed never exceeds total; the final state is always done or
error; and when the uploaded filenames are pairwise distinct (so the on-disk
listing matches the upload records one-to-one), processed + failed equals
total as soon as the batch reaches its final done-or-error status.  Without
the distinctness assumption the equality can fail at status done, because a
duplicated originalname is overwritten on disk during intake and is then
counted once by the pool but twice in total. -/
theorem batch_counter_invariant (names : List String) (outcome : String → Bool) :
    (∀ b ∈ batchTrace names outcome, b.processed + b.failed ≤ b.total) ∧
      ((finalBatch names outcome).status = BStatus.done ∨
        (finalBatch names outcome).status = BStatus.error) ∧
      (names.Nodup →
        (finalBatch names outcome).processed + (finalBatch names outcome).failed =
          (finalBatch names outcome).total) := by
  have hdlen : (diskFiles names).length ≤ names.length :=
    (List.dedup_sublist names).length_le
  have hpool := pooledBatch_counters names outcome
  refine ⟨?_, ?_, ?_⟩
  · intro b hb
    unfold batchTrace at hb
    rcases List.mem_cons.mp hb with hb | hb
    · subst hb
      simp [intakeBatch]
    rcases List.mem_append.mp hb with hb | hb
    · have hs := scanl_counter_bound outcome (diskFiles names) _ b hb
      simp only [intakeBatch, batch_status_update_processed, batch_status_update_failed,
        batch_status_update_total] at hs
      omega
    by_cases hc : outFiles names outcome = []
    · rw [if_pos hc] at hb
      simp only [List.mem_singleton] at hb
      subst hb
      simp only [batch_status_update_processed, batch_status_update_failed,
        batch_status_update_total]
      omega
    · rw [if_neg hc] at hb
      simp only [List.mem_cons, List.not_mem_nil, or_false] at hb
      rcases hb with hb | hb <;> subst hb <;>
        simp only [batch_status_update_processed, batch_status_update_failed,
          batch_status_update_total] <;> omega
  · unfold finalBatch
    by_cases hc : outFiles names outcome = []
    · rw [if_pos hc]
      right
      simp
    · rw [if_neg hc]
      left
      simp
  · intro hnd
    have hself : diskFiles names = names := List.dedup_eq_self.mpr hnd
    rw [hself] at hpool
    unfold finalBatch
    by_cases hc : outFiles names outcome = []
    · rw [if_pos hc]
      simp only [batch_status_update_processed, batch_status_update_failed,
        batch_status_update_total]
      omega
    · rw [if_neg hc]
      simp only [batch_status_update_processed, batch_status_update_failed,
        batch_status_update_total]
      omega

/-- Witness for the amended C2 theorem at a concrete batch of two distinct
files that both succeed. -/
theorem batch_counter_invariant_witness :
    ((["a.jpg", "b.png"] : List String).Nodup ∧
        intakeBatch ["a.jpg", "b.png"] ∈ batchTrace ["a.jpg", "b.png"] (fun _ => true)) ∧
      (intakeBatch ["a.jpg", "b.png"]).processed + (intakeBatch ["a.jpg", "b.png"]).failed ≤
        (intakeBatch ["a.jpg", "b.png"]).total ∧
      (finalBatch ["a.jpg", "b.png"] (fun _ => true)).processed +
          (finalBatch ["a.jpg", "b.png"] (fun _ => true)).failed =
        (finalBatch ["a.jpg", "b.png"] (fun _ => true)).total := by
  refine ⟨⟨by decide, by decide⟩, ?_, ?_⟩
  · exact (batch_counter_invariant ["a.jpg", "b.png"] (fun _ => true)).1 _ (by decide)
  · exact (batch_counter_invariant ["a.jpg", "b.png"] (fun _ => true)).2.2 (by decide)

/-- Claim C2, counterexample: a batch of two uploads that share the
originalname a.jpg.  Intake records total = 2, but the uploads directory holds
a single file, so the pool completes one item: the batch finishes done with
processed + failed = 1 ≠ 2 = total, refuting the claimed equality at status
done. -/
theorem duplicate_names_break_counter_equality :
    (finalBatch ["a.jpg", "a.jpg"] (fun _ => true)).status = BStatus.done ∧
      ¬((finalBatch ["a.jpg", "a.jpg"] (fun _ => true)).processed +
            (finalBatch ["a.jpg", "a.jpg"] (fun _ => true)).failed =
          (finalBatch ["a.jpg", "a.jpg"] (fun _ => true)).total) := by
  refine ⟨by decide, by decide⟩

/-- Claim C3: after the pool joins, the batch transitions to error exactly
when the output directory listing is empty, and to done exactly when it is
not; an empty output can never yield done. -/
theorem batch_error_iff_output_empty (names : List String) (outcome : String → Bool) :
    ((finalBatch names outcome).status = BStatus.error ↔ outFiles names outcome = []) ∧
      ((finalBatch names outcome).status = BStatus.done ↔ outFiles names outcome ≠ []) := by
  simp only [finalBatch]
  by_cases hc : outFiles names outcome = [] <;> simp [hc]

/-! ## Overlay layout metrics (src/worker.js lines 180-192) -/

structure OverlayMetrics where
  fontSize : ℤ
  padding : ℤ
  lineGap : ℤ
  marginPx : ℤ
  maxTextBlockWidth : ℤ
  wrapWidth : ℤ
  deriving DecidableEq, Repr

/-- src/worker.js lines 181-192, as written in the source:
eventFont = clamp(round(shortestSide*0.028), 18, 96);
padding = max(2, round(eventFont*0.35)); lineGap = max(2, round(eventFont*0.30));
marginPx = max(0, round((marginEm || 0) * eventFont));
maxTextBlockWidth = max(120, round(baseWidth * clamp(textMaxWidthPct || 0.9, 0.2, 0.98)) - marginPx).
The falsy-coalescing defaults only differ from the plain value at 0 (and at
non-number inputs, which the rational model excludes): marginEm || 0 is the
identity on rationals and is written plainly; textMaxWidthPct || 0.9 replaces
the value 0 by 0.9.  The wrap width passed to the text wrapper at line 220 is
maxTextBlockWidth - 2*padding. -/
def codeOverlayMetrics (baseWidth baseHeight : ℤ) (marginEm textMaxWidthPct : ℚ) :
    OverlayMetrics :=
  { fontSize := max 18 (min 96 (jsRound ((min baseWidth baseHeight : ℤ) * (28/1000 : ℚ)))),
    padding := max 2 (jsRound ((max 18 (min 96 (jsRound ((min baseWidth baseHeight : ℤ) * (28/1000 : ℚ)))) : ℤ) * (35/100 : ℚ))),
    lineGap := max 2 (jsRound ((max 18 (min 96 (jsRound ((min baseWidth baseHeight : ℤ) * (28/1000 : ℚ)))) : ℤ) * (30/100 : ℚ))),
    marginPx := max 0 (jsRound (marginEm * (max 18 (min 96 (jsRound ((min baseWidth baseHeight : ℤ) * (28/1000 : ℚ)))) : ℤ))),
    maxTextBlockWidth := max 120
      (jsRound ((baseWidth : ℚ) *
          jsClamp (if textMaxWidthPct = 0 then 9/10 else textMaxWidthPct) (2/10) (98/100)) -
        max 0 (jsRound (marginEm * (max 18 (min 96 (jsRound ((min baseWidth baseHeight : ℤ) * (28/1000 : ℚ)))) : ℤ)))),
    wrapWidth := max 120
      (jsRound ((baseWidth : ℚ) *
          jsClamp (if textMaxWidthPct = 0 then 9/10 else textMaxWidthPct) (2/10) (98/100)) -
        max 0 (jsRound (marginEm * (max 18 (min 96 (jsRound ((min baseWidth baseHeight : ℤ) * (28/1000 : ℚ)))) : ℤ)))) -
      2 * max 2 (jsRound ((max 18 (min 96 (jsRound ((min baseWidth baseHeight : ℤ) * (28/1000 : ℚ)))) : ℤ) * (35/100 : ℚ))) }

/-- The layout metrics exactly as the specification states them, with no
floor at 0 on marginPx, no floor at 120 on the text block width, and no
falsy default on textMaxWidthPct:
fontSize = clamp(round(min(baseWidth,baseHeight)*0.028), 18, 96);
padding = max(2, round(fontSize*0.35)); lineGap = max(2, round(fontSize*0.30));
marginPx = round(marginEm*fontSize);
maxTextBlockWidth = round(baseWidth*clamp(textMaxWidthPct, 0.2, 0.98)) - marginPx;
wrapWidth = maxTextBlockWidth - 2*padding. -/
def specOverlayMetrics (baseWidth baseHeight : ℤ) (marginEm textMaxWidthPct : ℚ) :
    OverlayMetrics :=
  { fontSize := max 18 (min 96 (jsRound ((min baseWidth baseHeight : ℤ) * (28/1000 : ℚ)))),
    padding := max 2 (jsRound ((max 18 (min 96 (jsRound ((min baseWidth baseHeight : ℤ) * (28/1000 : ℚ)))) : ℤ) * (35/100 : ℚ))),
    lineGap := max 2 (jsRound ((max 18 (min 96 (jsRound ((min baseWidth baseHeight : ℤ) * (28/1000 : ℚ)))) : ℤ) * (30/100 : ℚ))),
    marginPx := jsRound (marginEm * (max 18 (min 96 (jsRound ((min baseWidth baseHeight : ℤ) * (28/1000 : ℚ)))) : ℤ)),
    maxTextBlockWidth :=
      jsRound ((baseWidth : ℚ) * jsClamp textMaxWidthPct (2/10) (98/100)) -
        jsRound (marginEm * (max 18 (min 96 (jsRound ((min baseWidth baseHeight : ℤ) * (28/1000 : ℚ)))) : ℤ)),
    wrapWidth :=
      (jsRound ((baseWidth : ℚ) * jsClamp textMaxWidthPct (2/10) (98/100)) -
        jsRound (marginEm * (max 18 (min 96 (jsRound ((min baseWidth baseHeight : ℤ) * (28/1000 : ℚ)))) : ℤ))) -
      2 * max 2 (jsRound ((max 18 (min 96 (jsRound ((min baseWidth baseHeight : ℤ) * (28/1000 : ℚ)))) : ℤ) * (35/100 : ℚ))) }

theorem metrics_probe :
    (codeOverlayMetrics 1000 1000 100 (9/10)).maxTextBlockWidth = 120 ∧
      (specOverlayMetrics 1000 1000 100 (9/10)).maxTextBlockWidth = -1900 := by
  constructor <;>
    · simp only [codeOverlayMetrics, specOverlayMetrics, jsRound, jsClamp]
      norm_num [min_def, max_def, Int.floor_eq_iff]

/-- Claim C6, counterexample: at baseWidth = baseHeight = 1000, marginEm = 100
and textMaxWidthPct = 0.9, the code computes maxTextBlockWidth = 120 (its
floor of Math.max(120, ...)) while the spec formula gives
round(1000*0.9) - round(100*28) = -1900, so the metrics do not equal the spec
formulas exactly. -/
theorem overlayMetrics_differ_from_spec_formulas :
    codeOverlayMetrics 1000 1000 100 (9/10) ≠ specOverlayMetrics 1000 1000 100 (9/10) := by
  intro h
  have h2 := congrArg OverlayMetrics.maxTextBlockWidth h
  rw [metrics_probe.1, metrics_probe.2] at h2
  exact absurd h2 (by decide)

/-- The layout metrics as the claim must be amended to match the source:
identical to the spec formulas except that marginPx is floored at 0, the
maximum text block width is floored at 120, and a textMaxWidthPct of 0 falls
back to the default 0.9 (JS falsy coalescing). -/
def amendedOverlayMetrics (baseWidth baseHeight : ℤ) (marginEm textMaxWidthPct : ℚ) :
    OverlayMetrics :=
  let fontSize : ℤ := max 18 (min 96 (jsRound ((min baseWidth baseHeight : ℤ) * (28/1000 : ℚ))))
  let padding : ℤ := max 2 (jsRound ((fontSize : ℤ) * (35/100 : ℚ)))
  let lineGap : ℤ := max 2 (jsRound ((fontSize : ℤ) * (30/100 : ℚ)))
  let marginPx : ℤ := max 0 (jsRound (marginEm * (fontSize : ℚ)))
  let pct : ℚ := if textMaxWidthPct = 0 then 9/10 else textMaxWidthPct
  let maxTextBlockWidth : ℤ :=
    max 120 (jsRound ((baseWidth : ℚ) * jsClamp pct (2/10) (98/100)) - marginPx)
  { fontSize := fontSize, padding := padding, lineGap := lineGap, marginPx := marginPx,
    maxTextBlockWidth := maxTextBlockWidth, wrapWidth := maxTextBlockWidth - 2 * padding }

/-- Claim C6, amended: for all base dimensions, marginEm and textMaxWidthPct,
the layout metrics of the code equal the spec formulas amended with the marginPx
floor at 0, the text block width floor at 120, and the falsy default for
textMaxWidthPct = 0. -/
theorem overlayMetrics_match_amended_formulas
    (baseWidth baseHeight : ℤ) (marginEm textMaxWidthPct : ℚ) :
    codeOverlayMetrics baseWidth baseHeight marginEm textMaxWidthPct =
      amendedOverlayMetrics baseWidth baseHeight marginEm textMaxWidthPct := rfl

/-! ## Overlay placement (src/worker.js lines 46-54) -/

/-- src/worker.js line 50. -/
def overlayLeft (baseWidth wmW marginPx : ℤ) : ℤ := max 0 (baseWidth - wmW - marginPx)

/-- src/worker.js line 51. -/
def overlayTop (baseHeight wmH marginPx : ℤ) : ℤ := max 0 (baseHeight - wmH - marginPx)

/-- Claim C9: with the marginPx the code computes (which is never negative),
the composite position is clamped at 0 on both axes, and whenever the overlay
fits into the base image at all, the clamped position keeps it entirely inside
the base bounds — also in the regime overlayWidth + marginPx > baseWidth,
where the clamp at 0 takes effect. -/
theorem overlay_position_in_bounds (bw bh : ℤ) (me pct : ℚ) (ww wh : ℤ) :
    0 ≤ overlayLeft bw ww ((codeOverlayMetrics bw bh me pct).marginPx) ∧
      0 ≤ overlayTop bh wh ((codeOverlayMetrics bw bh me pct).marginPx) ∧
      (ww ≤ bw →
        overlayLeft bw ww ((codeOverlayMetrics bw bh me pct).marginPx) + ww ≤ bw) ∧
      (wh ≤ bh →
        overlayTop bh wh ((codeOverlayMetrics bw bh me pct).marginPx) + wh ≤ bh) := by
  have hm : 0 ≤ (codeOverlayMetrics bw bh me pct).marginPx := le_max_left 0 _
  unfold overlayLeft overlayTop
  refine ⟨le_max_left 0 _, le_max_left 0 _, ?_, ?_⟩ <;> intro h <;> omega

/-- Witness for the C9 theorem: a 100 by 50 base with an 80 by 40 overlay and
the default margin (where overlayWidth + marginPx exceeds baseWidth, so the
clamp at 0 is active on the horizontal axis). -/
theorem overlay_position_in_bounds_witness :
    ((80 : ℤ) ≤ 100 ∧ (40 : ℤ) ≤ 50) ∧
      overlayLeft 100 80 ((codeOverlayMetrics 100 50 1 (9/10)).marginPx) + 80 ≤ 100 ∧
      overlayTop 50 40 ((codeOverlayMetrics 100 50 1 (9/10)).marginPx) + 40 ≤ 50 := by
  refine ⟨⟨by decide, by decide⟩, ?_, ?_⟩
  · exact (overlay_position_in_bounds 100 50 1 (9/10) 80 40).2.2.1 (by decide)
  · exact (overlay_position_in_bounds 100 50 1 (9/10) 80 40).2.2.2 (by decide)

/-! ## Global overlay opacity (src/worker.js lines 256-263) -/

structure Rgba where
  r : ℚ
  g : ℚ
  b : ℚ
  a : ℚ
  deriving DecidableEq, Repr

/-- The linear operation of sharp, with one multiplier and one offset per channel:
each output channel is multiplier * input + offset. -/
def sharpLinear4 (m1 m2 m3 m4 o1 o2 o3 o4 : ℚ) (p : Rgba) : Rgba :=
  { r := m1 * p.r + o1, g := m2 * p.g + o2, b := m3 * p.b + o3, a := m4 * p.a + o4 }

/-- src/worker.js lines 258-261: alpha = Math.max(0, Math.min(1,
overlayOpacity)), then linear([1, 1, 1, alpha], [0, 0, 0, 0]) on the
composited overlay. -/
def applyOverlayOpacity (overlayOpacity : ℚ) (p : Rgba) : Rgba :=
  sharpLinear4 1 1 1 (max 0 (min 1 overlayOpacity)) 0 0 0 0 p

/-- Claim C8: the global opacity step leaves the R, G and B of every pixel exactly
unchanged and scales its alpha by clamp(overlayOpacity, 0, 1). -/
theorem opacity_scales_only_alpha (overlayOpacity : ℚ) (p : Rgba) :
    (applyOverlayOpacity overlayOpacity p).r = p.r ∧
      (applyOverlayOpacity overlayOpacity p).g = p.g ∧
      (applyOverlayOpacity overlayOpacity p).b = p.b ∧
      (applyOverlayOpacity overlayOpacity p).a = jsClamp overlayOpacity 0 1 * p.a := by
  refine ⟨?_, ?_, ?_, ?_⟩ <;> simp [applyOverlayOpacity, sharpLinear4, jsClamp]

/-! ## Text wrapping (src/worker.js lines 89-174)

A rendered line is modelled by the words it holds, the font size it was
rendered at, and its trimmed pixel width and height.  Rasterisation and
trimming by sharp are modelled by the oracles `meas` and `hgt`, giving the
trimmed width and height of a text at a font size. -/

structure TextLine where
  words : List String
  fontSize : ℤ
  width : Nat
  height : Nat
  deriving DecidableEq, Repr

/-- The text of a line: its words joined by single spaces, exactly the strings
the source accumulates in `current` and `tryLine`. -/
def lineText : List String → String
  | [] => ""
  | [w] => w
  | w :: ws => w ++ " " ++ lineText ws

/-- src/worker.js renderTrimmedLine (lines 126-132): render the text at the
given font size and measure the trimmed result. -/
def renderTrimmedLine (meas hgt : ℤ → String → Nat) (fs : ℤ) (ws : List String) : TextLine :=
  { words := ws, fontSize := fs, width := meas fs (lineText ws), height := hgt fs (lineText ws) }

/-- src/worker.js line 141: the empty-words branch renders a single space at
the same font size. -/
def blankLine (meas hgt : ℤ → String → Nat) (fs : ℤ) : TextLine :=
  { words := [], fontSize := fs, width := meas fs " ", height := hgt fs " " }

/-- src/worker.js lines 145-169, the greedy loop: `cur` holds the words of the
current line; each next word is measured appended to the current line and accepted
when the measured width stays within maxLineWidth; otherwise the non-empty
current line is flushed and the word starts the next line, and a word that
overflows an empty current line is flushed alone as its own line. -/
def wrapGo (meas hgt : ℤ → String → Nat) (fs maxW : ℤ) :
    List String → List String → List TextLine
  | cur, [] => if cur = [] then [] else [renderTrimmedLine meas hgt fs cur]
  | cur, w :: ws =>
    if (meas fs (lineText (cur ++ [w])) : ℤ) ≤ maxW then
      wrapGo meas hgt fs maxW (cur ++ [w]) ws
    else if cur = [] then
      renderTrimmedLine meas hgt fs [w] :: wrapGo meas hgt fs maxW [] ws
    else
      renderTrimmedLine meas hgt fs cur :: wrapGo meas hgt fs maxW [w] ws

/-- fullText.split with one-or-more whitespace, keeping only the non-empty
pieces (src/worker.js line 139). -/
def splitWsAux : List Char → List Char → List String
  | [], acc => if acc = [] then [] else [String.mk acc.reverse]
  | c :: cs, acc =>
    if c.isWhitespace then
      if acc = [] then splitWsAux cs [] else String.mk acc.reverse :: splitWsAux cs []
    else splitWsAux cs (c :: acc)

def splitWs (s : String) : List String := splitWsAux s.data []

/-- src/worker.js wrapTextToWidth (lines 138-174), producing the rendered
lines (the totals it also returns are recomputed by the caller model). -/
def wrapTextToWidth (meas hgt : ℤ → String → Nat) (fs maxW : ℤ) (fullText : String) :
    List TextLine :=
  if splitWs fullText = [] then [blankLine meas hgt fs]
  else wrapGo meas hgt fs maxW [] (splitWs fullText)

theorem wrapGo_fontSize (meas hgt : ℤ → String → Nat) (fs maxW : ℤ) :
    ∀ (ws cur : List String) (l : TextLine), l ∈ wrapGo meas hgt fs maxW cur ws →
      l.fontSize = fs := by
  intro ws
  induction ws with
  | nil =>
    intro cur l h
    unfold wrapGo at h
    by_cases hc : cur = []
    · simp [hc] at h
    · rw [if_neg hc] at h
      simp only [List.mem_singleton] at h
      subst h
      rfl
  | cons w ws ih =>
    intro cur l h
    unfold wrapGo at h
    by_cases h1 : (meas fs (lineText (cur ++ [w])) : ℤ) ≤ maxW
    · rw [if_pos h1] at h
      exact ih (cur ++ [w]) l h
    · rw [if_neg h1] at h
      by_cases hc : cur = []
      · rw [if_pos hc] at h
        rcases List.mem_cons.mp h with h | h
        · subst h; rfl
        · exact ih [] l h
      · rw [if_neg hc] at h
        rcases List.mem_cons.mp h with h | h
        · subst h; rfl
        · exact ih [w] l h

theorem wrapGo_join (meas hgt : ℤ → String → Nat) (fs maxW : ℤ) :
    ∀ (ws cur : List String),
      ((wrapGo meas hgt fs maxW cur ws).map TextLine.words).flatten = cur ++ ws := by
  intro ws
  induction ws with
  | nil =>
    intro cur
    unfold wrapGo
    by_cases hc : cur = []
    · simp [hc]
    · rw [if_neg hc]
      simp [renderTrimmedLine]
  | cons w ws ih =>
    intro cur
    unfold wrapGo
    by_cases h1 : (meas fs (lineText (cur ++ [w])) : ℤ) ≤ maxW
    · rw [if_pos h1, ih (cur ++ [w])]
      simp
    · rw [if_neg h1]
      by_cases hc : cur = []
      · rw [if_pos hc, hc]
        simp [renderTrimmedLine, ih []]
      · rw [if_neg hc]
        simp [renderTrimmedLine, ih [w]]

theorem wrapGo_multiword_fits (meas hgt : ℤ → String → Nat) (fs maxW : ℤ) :
    ∀ (ws cur : List String),
      (2 ≤ cur.length → (meas fs (lineText cur) : ℤ) ≤ maxW) →
      ∀ l ∈ wrapGo meas hgt fs maxW cur ws, 2 ≤ l.words.length →
        (meas fs (lineText l.words) : ℤ) ≤ maxW := by
  intro ws
  induction ws with
  | nil =>
    intro cur hcur l h hlen
    unfold wrapGo at h
    by_cases hc : cur = []
    · simp [hc] at h
    · rw [if_neg hc] at h
      simp only [List.mem_singleton] at h
      subst h
      exact hcur hlen
  | cons w ws ih =>
    intro cur hcur l h hlen
    unfold wrapGo at h
    by_cases h1 : (meas fs (lineText (cur ++ [w])) : ℤ) ≤ maxW
    · rw [if_pos h1] at h
      exact ih (cur ++ [w]) (fun _ => h1) l h hlen
    · rw [if_neg h1] at h
      by_cases hc : cur = []
      · rw [if_pos hc] at h
        rcases List.mem_cons.mp h with h | h
        · subst h
          simp [renderTrimmedLine] at hlen
        · exact ih [] (by intro h2; simp at h2) l h hlen
      · rw [if_neg hc] at h
        rcases List.mem_cons.mp h with h | h
        · subst h
          exact hcur hlen
        · exact ih [w] (by intro h2; simp at h2) l h hlen

/-- Claim C7: for every input phrase and wrap width, (i) every rendered line
keeps the computed font size — the font is never shrunk; (ii) the wrapped
lines hold exactly the words of the phrase, in their original order, never split
or truncated; (iii) every multi-word line measures within the wrap width; and
(iv) assuming only that the renderer cannot measure a line below one of the
words it contains, a word measuring wider than the wrap width comes out as
its own over-wide single-word line. -/
theorem wrap_never_shrinks_font (meas hgt : ℤ → String → Nat) (fs maxW : ℤ)
    (fullText : String) :
    (∀ l ∈ wrapTextToWidth meas hgt fs maxW fullText, l.fontSize = fs) ∧
      (splitWs fullText ≠ [] →
        ((wrapTextToWidth meas hgt fs maxW fullText).map TextLine.words).flatten =
          splitWs fullText) ∧
      (∀ l ∈ wrapTextToWidth meas hgt fs maxW fullText, 2 ≤ l.words.length →
        (meas fs (lineText l.words) : ℤ) ≤ maxW) ∧
      ((∀ (pre post : List String) (w : String),
          meas fs w ≤ meas fs (lineText (pre ++ w :: post))) →
        ∀ w ∈ splitWs fullText, maxW < (meas fs w : ℤ) →
          ∃ l ∈ wrapTextToWidth meas hgt fs maxW fullText, l.words = [w]) := by
  by_cases hsplit : splitWs fullText = []
  · refine ⟨?_, ?_, ?_, ?_⟩
    · intro l h
      simp only [wrapTextToWidth, if_pos hsplit, List.mem_singleton] at h
      subst h
      rfl
    · intro h
      exact absurd hsplit h
    · intro l h
      simp only [wrapTextToWidth, if_pos hsplit, List.mem_singleton] at h
      subst h
      intro h2
      simp [blankLine] at h2
    · intro _ w hw
      rw [hsplit] at hw
      simp at hw
  · have hform : wrapTextToWidth meas hgt fs maxW fullText =
        wrapGo meas hgt fs maxW [] (splitWs fullText) := by
      simp [wrapTextToWidth, hsplit]
    refine ⟨?_, ?_, ?_, ?_⟩
    · intro l h
      rw [hform] at h
      exact wrapGo_fontSize meas hgt fs maxW (splitWs fullText) [] l h
    · intro _
      rw [hform]
      simpa using wrapGo_join meas hgt fs maxW (splitWs fullText) []
    · intro l h
      rw [hform] at h
      exact wrapGo_multiword_fits meas hgt fs maxW (splitWs fullText) []
        (by intro h2; simp at h2) l h
    · intro hmono w hw hwide
      have hj : ((wrapTextToWidth meas hgt fs maxW fullText).map TextLine.words).flatten =
          splitWs fullText := by
        rw [hform]
        simpa using wrapGo_join meas hgt fs maxW (splitWs fullText) []
      have hwmem : w ∈ ((wrapTextToWidth meas hgt fs maxW fullText).map
          TextLine.words).flatten := by
        rw [hj]; exact hw
      obtain ⟨lw, hlw, hwl⟩ := List.mem_flatten.mp hwmem
      obtain ⟨l, hlmem, hleq⟩ := List.mem_map.mp hlw
      subst hleq
      obtain ⟨pre, post, hdecomp⟩ := List.append_of_mem hwl
      by_cases hlen : 2 ≤ l.words.length
      · exfalso
        have hfits : (meas fs (lineText l.words) : ℤ) ≤ maxW := by
          rw [hform] at hlmem
          exact wrapGo_multiword_fits meas hgt fs maxW (splitWs fullText) []
            (by intro h2; simp at h2) l hlmem hlen
        have hmw : meas fs w ≤ meas fs (lineText l.words) := by
          rw [hdecomp]
          exact hmono pre post w
        have hmw2 : (meas fs w : ℤ) ≤ (meas fs (lineText l.words) : ℤ) :=
          Int.ofNat_le.mpr hmw
        omega
      · have hpos : 0 < l.words.length := List.length_pos_of_mem hwl
        have hlen1 : l.words.length = 1 := by omega
        have hsingle : l.words = [w] := by
          rw [hdecomp] at hlen1 ⊢
          simp only [List.length_append, List.length_cons] at hlen1
          have hpre : pre = [] := List.length_eq_zero.mp (by omega)
          have hpost : post = [] := List.length_eq_zero.mp (by omega)
          rw [hpre, hpost]
          rfl
        exact ⟨l, hlmem, hsingle⟩

/-- Witness for the C7 theorem on a concrete phrase of two words, with a
renderer oracle measuring every text at width 0, a wrap width of -1 (so every
word overflows), and the monotonicity hypothesis holding trivially. -/
theorem wrap_never_shrinks_font_witness :
    (∀ l ∈ wrapTextToWidth (fun _ _ => 0) (fun _ _ => 0) 20 (-1) "aa bb", l.fontSize = 20) ∧
      ((wrapTextToWidth (fun _ _ => 0) (fun _ _ => 0) 20 (-1) "aa bb").map
          TextLine.words).flatten = splitWs "aa bb" ∧
      (∃ l ∈ wrapTextToWidth (fun _ _ => 0) (fun _ _ => 0) 20 (-1) "aa bb",
        l.words = ["aa"]) := by
  have h := wrap_never_shrinks_font (fun _ _ => 0) (fun _ _ => 0) 20 (-1) "aa bb"
  refine ⟨h.1, h.2.1 (by decide), ?_⟩
  exact h.2.2.2 (fun _ _ _ => le_refl 0) "aa" (by decide) (by decide)

/-! ## Watermark overlay construction (src/worker.js lines 180-272) -/

/-- JS String.trim: strip whitespace from both ends. -/
def strTrim (s : String) : String :=
  String.mk (((s.data.dropWhile Char.isWhitespace).reverse.dropWhile Char.isWhitespace).reverse)

/-- The worker inputs the overlay builder receives (src/worker.js lines
34-44); marginEm, textMaxWidthPct and overlayOpacity default to 1, 0.9 and
0.75 when the payload omits them (line 16-18). -/
structure WorkerArgs where
  baseWidth : ℤ
  baseHeight : ℤ
  dateText : String
  eventText : String
  marginEm : ℚ
  textMaxWidthPct : ℚ
  overlayOpacity : ℚ

/-- Oracles for the external collaborators of the overlay builder: the text
measurement of renderTrimmedLine, and the logo block of lines 197-214, which
given the desired height round(fontSize*2.2) reports the dimensions of the
resized logo, or nothing when the logo file is absent, has no readable
metadata, or fails to decode or resize. -/
structure RenderEnv where
  meas : ℤ → String → Nat
  hgt : ℤ → String → Nat
  logo : ℤ → Option (Nat × Nat)

/-- What buildWatermarkOverlay returns to the worker (src/worker.js lines
265-271); the pixel buffer itself stays with the rasterisation oracles. -/
structure OverlayResult where
  width : ℤ
  height : ℤ
  fontSize : ℤ
  marginPx : ℤ
  deriving DecidableEq, Repr

/-- src/worker.js buildWatermarkOverlay (lines 180-272): layout metrics, the
trimmed-and-joined combined text, the optional logo block, greedy wrapping of
the combined text (a blank space when both texts are empty), the text block
and overlay dimensions, and the returned overlay record.  Every control path
of the source ends in the single return of lines 265-271: the function has no
return null. -/
def buildWatermarkOverlay (env : RenderEnv) (a : WorkerArgs) : Option OverlayResult :=
  let m := codeOverlayMetrics a.baseWidth a.baseHeight a.marginEm a.textMaxWidthPct
  let combinedText := strTrim (strTrim a.eventText ++ " " ++ strTrim a.dateText)
  let logoInfo := env.logo (jsRound ((m.fontSize : ℤ) * (22/10 : ℚ)))
  let logoWidth : ℤ := match logoInfo with | some wh => (wh.1 : ℤ) | none => 0
  let logoHeight : ℤ := match logoInfo with | some wh => (wh.2 : ℤ) | none => 0
  let textLines := wrapTextToWidth env.meas env.hgt m.fontSize (m.maxTextBlockWidth - 2 * m.padding)
    (if combinedText.length ≠ 0 then combinedText else " ")
  let textBlockWidth : ℤ := textLines.foldl (fun acc l => max acc (l.width : ℤ)) 1
  let textBlockHeight : ℤ :=
    textLines.foldl (fun acc l => acc + (l.height : ℤ)) 0 +
      (if 1 < textLines.length then ((textLines.length : ℤ) - 1) * m.lineGap else 0)
  let contentWidth := max logoWidth textBlockWidth
  let overlayWidth := contentWidth + 2 * m.padding
  let overlayHeight := m.padding + (if logoInfo.isSome then logoHeight + m.lineGap else 0) +
    textBlockHeight + m.padding
  some { width := overlayWidth, height := overlayHeight, fontSize := m.fontSize,
         marginPx := m.marginPx }

/-- Claim C4, amended: buildWatermarkOverlay never returns null — for every
input, including both texts empty and no logo available, it returns a
non-null overlay (built around a rendered blank space), so the pipeline
branch that skips compositing on a null overlay is unreachable. -/
theorem buildOverlay_never_null (env : RenderEnv) (a : WorkerArgs) :
    (buildWatermarkOverlay env a).isSome = true := rfl

/-- A renderer environment with no logo available at any size and a renderer
measuring everything at zero. -/
def emptyRenderEnv : RenderEnv :=
  { meas := fun _ _ => 0, hgt := fun _ _ => 0, logo := fun _ => none }

/-- Worker arguments with both watermark texts empty, at the default
marginEm, textMaxWidthPct and overlayOpacity. -/
def emptyTextArgs : WorkerArgs :=
  { baseWidth := 1000, baseHeight := 1000, dateText := "", eventText := "",
    marginEm := 1, textMaxWidthPct := 9/10, overlayOpacity := 3/4 }

/-- Claim C4, counterexample: with both dateText and eventText empty after
trimming and no logo available, buildWatermarkOverlay still returns a
non-null overlay, where the claim requires null exactly there. -/
theorem buildOverlay_empty_inputs_not_null :
    strTrim emptyTextArgs.dateText = "" ∧ strTrim emptyTextArgs.eventText = "" ∧
      emptyRenderEnv.logo 62 = none ∧
      (buildWatermarkOverlay emptyRenderEnv emptyTextArgs).isSome = true := by
  exact ⟨rfl, rfl, rfl, rfl⟩

/-! ## Worker pool dispatch (src/server.js lines 150-183)

The shared cursor `idx` of line 151 is read and incremented in the single
synchronous expression files[idx++] of line 155, before any suspension point
of runOne, so on the cooperatively scheduled host each claim is one atomic
step.  A pool execution is abstracted as a schedule: the sequence of worker
identities whose claim steps the event loop runs, in order; any pool size and
any interleaving of any number of workers is some schedule.  A worker whose
claim finds the cursor past the end of the listing stops (the undefined check
of line 156), leaving the state unchanged. -/

structure PoolState where
  idx : Nat
  claims : List (Nat × Nat)
  deriving DecidableEq, Repr

/-- One claim step by worker `w` against a listing of `len` files:
files[idx++] — take the current index and advance the shared cursor,
recording (worker, claimed index); past the end, do nothing. -/
def poolStep (len : Nat) (s : PoolState) (w : Nat) : PoolState :=
  if s.idx < len then { idx := s.idx + 1, claims := s.claims ++ [(w, s.idx)] } else s

/-- Run a schedule of claim steps from the initial shared state. -/
def poolRun (len : Nat) (sched : List Nat) : PoolState :=
  sched.foldl (poolStep len) { idx := 0, claims := [] }

theorem poolFold_invariant (len : Nat) :
    ∀ (sched : List Nat) (s : PoolState),
      s.claims.map Prod.snd = List.range s.idx → s.idx ≤ len →
      (sched.foldl (poolStep len) s).claims.map Prod.snd =
          List.range (sched.foldl (poolStep len) s).idx ∧
        (sched.foldl (poolStep len) s).idx = min (s.idx + sched.length) len := by
  intro sched
  induction sched with
  | nil =>
    intro s hclaims hle
    constructor
    · simpa using hclaims
    · simp
      omega
  | cons w ws ih =>
    intro s hclaims hle
    simp only [List.foldl_cons]
    by_cases hlt : s.idx < len
    · have hstep : poolStep len s w = { idx := s.idx + 1, claims := s.claims ++ [(w, s.idx)] } := by
        unfold poolStep
        rw [if_pos hlt]
      have hclaims2 : (poolStep len s w).claims.map Prod.snd = List.range (poolStep len s w).idx := by
        rw [hstep]
        simp only [List.map_append, hclaims, List.map_cons, List.map_nil]
        rw [← Nat.succ_eq_add_one, List.range_succ]
      have hle2 : (poolStep len s w).idx ≤ len := by
        rw [hstep]
        show s.idx + 1 ≤ len
        omega
      obtain ⟨h1, h2⟩ := ih (poolStep len s w) hclaims2 hle2
      refine ⟨h1, ?_⟩
      rw [h2, hstep]
      simp only [List.length_cons]
      show min (s.idx + 1 + ws.length) len = min (s.idx + (ws.length + 1)) len
      omega
    · have hstep : poolStep len s w = s := by
        unfold poolStep
        rw [if_neg hlt]
      obtain ⟨h1, h2⟩ := ih s (by rw [← hstep] at hclaims ⊢; exact hclaims) hle
      rw [hstep]
      refine ⟨h1, ?_⟩
      rw [h2]
      simp only [List.length_cons]
      omega

/-- Claim C10: under every schedule of claim steps — hence for every pool
size and every interleaving — the sequence of claimed file indices is exactly
range(min(steps, total)): each file index below the final cursor position
is claimed exactly once, in listing order, by exactly the one worker whose
step claimed it; and once the schedule provides at least as many steps as
files, every file in the listing is claimed exactly once and none is
skipped. -/
theorem pool_claims_each_file_once (len : Nat) (sched : List Nat) :
    (poolRun len sched).claims.map Prod.snd = List.range (min sched.length len) ∧
      (len ≤ sched.length → (poolRun len sched).claims.map Prod.snd = List.range len) := by
  have h := poolFold_invariant len sched { idx := 0, claims := [] } (by simp) (by simp)
  obtain ⟨h1, h2⟩ := h
  simp only [Nat.zero_add] at h2
  constructor
  · rw [poolRun, h1, h2]
  · intro hle
    rw [poolRun, h1, h2]
    congr 1
    omega

/-- Witness for the C10 theorem: a listing of 2 files and a schedule of three
claim steps by workers 5, 7 and 5 — the claimed indices are [0, 1], each
exactly once, in order. -/
theorem pool_claims_each_file_once_witness :
    (2 ≤ ([5, 7, 5] : List Nat).length) ∧
      (poolRun 2 [5, 7, 5]).claims.map Prod.snd = List.range 2 := by
  refine ⟨by decide, ?_⟩
  exact (pool_claims_each_file_once 2 [5, 7, 5]).2 (by decide)
